import Mathlib

/-!
Verification model of the dayz-server-manager backup and scheduled-event
subsystem: the Backups and Events services (src/services/backups.ts), the
path helpers of the Manager (src/control/manager.ts), and the two
standalone backup-cleanup shell scripts.

Filesystem directory trees are modelled atomically: each directory entry is
a node carrying a flag telling whether it is a directory, an abstract token
standing for the byte contents of its whole subtree, and a modification
time.  A filesystem is an association list from paths (segment lists) to
nodes.  Clock and fault-injection flags are read-only during a call and
live in the environment; only the filesystem is threaded through the
operations.
-/

namespace DayZSM

/-- A filesystem path, as the list of its segments. -/
abbrev FsPath := List String

/-- A directory-tree node: whether the entry is a directory, an abstract
token standing for the byte contents of the whole subtree, and the
modification time (milliseconds for the manager, seconds for the shell
scripts). -/
structure Node where
  isDir : Bool
  content : Nat
  mtime : Int
  deriving DecidableEq

/-- A filesystem: an association list from paths to nodes. -/
abbrev FS := List (FsPath × Node)

/-- First entry stored at a path, if any. -/
def FS.lookup : FS → FsPath → Option Node
  | [], _ => none
  | (q, n) :: t, p => if q = p then some n else FS.lookup t p

/-- Drop every entry stored at a path. -/
def FS.erase : FS → FsPath → FS
  | [], _ => []
  | (q, n) :: t, p => if q = p then FS.erase t p else (q, n) :: FS.erase t p

/-- Overwrite the entry at a path. -/
def FS.set (fs : FS) (p : FsPath) (n : Node) : FS :=
  (p, n) :: FS.erase fs p

/-- Names of the immediate children of a directory (what readdir returns). -/
def FS.children : FS → FsPath → List String
  | [], _ => []
  | (q, _) :: t, p =>
    if q.dropLast = p ∧ q.length = p.length + 1 then
      match q.getLast? with
      | some x => x :: FS.children t p
      | none => FS.children t p
    else FS.children t p

/-- The nonempty prefixes of a path, shortest first. -/
def pathPrefixes (p : FsPath) : List FsPath :=
  (List.range p.length).map (fun i => p.take (i + 1))

/-- Create a single directory if absent (one step of mkdir recursive). -/
def ensureDir (fs : FS) (p : FsPath) (t : Int) : FS :=
  match FS.lookup fs p with
  | some _ => fs
  | none => FS.set fs p ⟨true, 0, t⟩

/-- fs.promises.mkdir(p, recursive: true): create the directory and all its
missing parents. -/
def mkdirAll (fs : FS) (p : FsPath) (t : Int) : FS :=
  (pathPrefixes p).foldl (fun a q => ensureDir a q t) fs

/-- Model of JavaScript String.prototype.startsWith and of the shell glob
prefix test. -/
def strStartsWith (s p : String) : Bool :=
  p.data.isPrefixOf s.data

/-- Configuration, working directory, clock and fault-injection flags: all
data that is read-only during a single Backups call. -/
structure Env where
  cwd : FsPath
  backupPath : FsPath
  backupPathAbs : Bool
  serverPathCfg : Option FsPath
  serverPathAbs : Bool
  backupMaxAge : Nat
  failCopy : Bool
  failRemove : Bool
  failMkdir : Bool
  failReaddir : Bool
  nowMs : Int
  nowYear : Nat
  nowMonth : Nat
  nowDay : Nat
  nowHours : Nat
  nowMinutes : Nat
  deriving DecidableEq

/-- Manager.getServerPath (src/control/manager.ts): the configured server
path, else cwd/DayZServer; a relative configured path resolves against the
working directory.  An unset or empty config value is the none case. -/
def Env.getServerPath (env : Env) : FsPath :=
  match env.serverPathCfg with
  | none => env.cwd ++ ["DayZServer"]
  | some sp => if env.serverPathAbs then sp else env.cwd ++ sp

/-- Backups.getBackupDir: config.backupPath if absolute, else resolved
against the working directory. -/
def Env.getBackupDir (env : Env) : FsPath :=
  if env.backupPathAbs then env.backupPath else env.cwd ++ env.backupPath

/-- The live mission-data directory: path.join(getServerPath(), 'mpmissions'). -/
def mpmissionsPath (env : Env) : FsPath :=
  env.getServerPath ++ ["mpmissions"]

/-- The timestamped artifact name createBackup builds from the current
date: mpmissions_Y-M-D-H-Min (getMonth() is zero-based, hence the +1). -/
def backupMarker (env : Env) : String :=
  "mpmissions_" ++ toString env.nowYear ++ "-" ++ toString (env.nowMonth + 1)
    ++ "-" ++ toString env.nowDay ++ "-" ++ toString env.nowHours
    ++ "-" ++ toString env.nowMinutes

/-- The stat-and-filter loop of Backups.getBackups: keep entries whose name
starts with mpmissions_ and which are directories, paired with their
mtime.  A stat failure (entry vanished) propagates as an error. -/
def getBackupsLoop (dir : FsPath) (fs : FS) : List String → Except Unit (List (String × Int))
  | [] => .ok []
  | f :: rest =>
    match FS.lookup fs (dir ++ [f]) with
    | none => .error ()
    | some st =>
      match getBackupsLoop dir fs rest with
      | .error e => .error e
      | .ok l =>
        .ok (if strStartsWith f "mpmissions_" && st.isDir then (f, st.mtime) :: l else l)

/-- fs.promises.readdir on the backup directory: fails when injected or
when the directory does not exist. -/
def fsReaddir (env : Env) (fs : FS) (p : FsPath) : Except Unit (List String) :=
  if env.failReaddir then .error ()
  else
    match FS.lookup fs p with
    | none => .error ()
    | some _ => .ok (FS.children fs p)

/-- Backups.getBackups: list the backup directory and return (name, mtime)
descriptors; read-only; errors are logged and rethrown to the caller. -/
def getBackups (env : Env) (fs : FS) : Except Unit (List (String × Int)) :=
  match fsReaddir env fs env.getBackupDir with
  | .error e => .error e
  | .ok files => getBackupsLoop env.getBackupDir fs files

/-- The removal loop of Backups.cleanup.  For each expired descriptor the
source calls paths.removeLink(backup.file) with the bare artifact NAME
(not joined with the backup directory).  Modelled from the spec: the Paths
service (not under src/) exposes a removeTree whose relative path argument
resolves against the process working directory, so the removal targets
cwd/name.  Returns the list of removal targets (the source observably
counts them in removedCount) together with the resulting filesystem; a
removal failure aborts the loop (caught and swallowed by cleanup). -/
def cleanupLoop (env : Env) (maxAge : Int) : List (String × Int) → FS → List FsPath × FS
  | [], fs => ([], fs)
  | (f, mt) :: rest, fs =>
    if env.nowMs - mt > maxAge then
      if env.failRemove then ([], fs)
      else
        let fs1 := FS.erase fs (env.cwd ++ [f])
        let r := cleanupLoop env maxAge rest fs1
        ((env.cwd ++ [f]) :: r.1, r.2)
    else cleanupLoop env maxAge rest fs

/-- Backups.cleanup: list backups, delete those older than
backupMaxAge * 24 * 60 * 60 * 1000 ms (strict >); every error is caught
and swallowed. -/
def cleanup (env : Env) (fs : FS) : List FsPath × FS :=
  match getBackups env fs with
  | .error _ => ([], fs)
  | .ok bs =>
    cleanupLoop env ((env.backupMaxAge : Int) * (24 * 60 * 60 * 1000)) bs fs

/-- Backups.createBackup: ensure the backup root exists, skip with a
warning when the live mpmissions directory is missing, else copy it to the
timestamped artifact path and fire cleanup (fire-and-forget, modelled as
run-to-completion); any error is logged and rethrown. -/
def createBackup (env : Env) (fs : FS) : Except Unit Unit × FS :=
  if env.failMkdir then (.error (), fs)
  else
    match FS.lookup (mkdirAll fs env.getBackupDir env.nowMs) (mpmissionsPath env) with
    | none => (.ok (), mkdirAll fs env.getBackupDir env.nowMs)
    | some src =>
      if env.failCopy then (.error (), mkdirAll fs env.getBackupDir env.nowMs)
      else
        (.ok (), (cleanup env (FS.set (mkdirAll fs env.getBackupDir env.nowMs)
          (env.getBackupDir ++ [backupMarker env])
          ⟨src.isDir, src.content, env.nowMs⟩)).2)

/-- The final copy of Backups.restoreBackup: paths.copyDirFromTo(backupPath,
mpmissionsPath), inside the surrounding try/catch that converts errors to
false. -/
def finishRestore (env : Env) (fs : FS) (src dst : FsPath) : Bool × FS :=
  if env.failCopy then (false, fs)
  else
    match FS.lookup fs src with
    | none => (false, fs)
    | some n => (true, FS.set fs dst ⟨n.isDir, n.content, env.nowMs⟩)

/-- Backups.restoreBackup: false when the named artifact does not exist;
else create a safety backup via createBackup, remove the live mpmissions
directory if present, copy the artifact over it; every internal error is
caught and converted to a false result. -/
def restoreBackup (env : Env) (fs : FS) (name : String) : Bool × FS :=
  if (FS.lookup fs (env.getBackupDir ++ [name])).isNone then (false, fs)
  else
    match createBackup env fs with
    | (.error _, fs1) => (false, fs1)
    | (.ok _, fs1) =>
      match FS.lookup fs1 (mpmissionsPath env) with
      | some _ =>
        if env.failRemove then (false, fs1)
        else
          finishRestore env (FS.erase fs1 (mpmissionsPath env))
            (env.getBackupDir ++ [name]) (mpmissionsPath env)
      | none =>
        finishRestore env fs1 (env.getBackupDir ++ [name]) (mpmissionsPath env)

/-- True exactly on the error constructor; lets theorems state that a call
throws. -/
def exceptIsError : Except Unit Unit → Bool
  | .error _ => true
  | .ok _ => false

/-! ## Events service (scheduler and dispatcher) -/

/-- The operational state of the supervised server process.  Modelled from
the spec: the Process Supervisor reports one of STOPPED, STARTING,
STARTED, STOPPING (types/monitor.ts is not under src/); the dispatcher
only compares against STARTED. -/
inductive ServerState
  | STOPPED
  | STARTING
  | STARTED
  | STOPPING
  deriving DecidableEq

/-- A configured scheduled event (config/config.ts shape as used by
Events): the type is a plain string, matching the switch in execute with
its silent default branch; a missing or empty cron expression is falsy. -/
structure Event where
  name : String
  type : String
  cron : Option String
  params : List String
  deriving DecidableEq

/-- The concrete side-effecting action a dispatched task would run:
kill-server plus Discord notification, an RCON broadcast with its payload
(none models the undefined payload of a misconfigured message task), the
parameterless RCON calls, or Backups.createBackup. -/
inductive TaskAction
  | restartAction
  | messageAction (msg : Option String)
  | kickAllAction
  | lockAction
  | unlockAction
  | backupAction
  deriving DecidableEq

/-- Events.checkStartedAndRun: run the task only when the supervised
server is in STARTED state, else skip with a warning log. -/
def checkStartedAndRun (st : ServerState) (a : TaskAction) : Option TaskAction :=
  if st = ServerState.STARTED then some a else none

/-- Events.execute: dispatch by task type.  Every branch except backup
goes through checkStartedAndRun; the backup branch calls runTask directly,
so createBackup is invoked regardless of server state; an unrecognized
type is a silent no-op.  The result is the underlying action actually
invoked, if any. -/
def execute (st : ServerState) (e : Event) : Option TaskAction :=
  if e.type = "restart" then checkStartedAndRun st TaskAction.restartAction
  else if e.type = "message" then checkStartedAndRun st (TaskAction.messageAction e.params.head?)
  else if e.type = "kickAll" then checkStartedAndRun st TaskAction.kickAllAction
  else if e.type = "lock" then checkStartedAndRun st TaskAction.lockAction
  else if e.type = "unlock" then checkStartedAndRun st TaskAction.unlockAction
  else if e.type = "backup" then some TaskAction.backupAction
  else none

/-- Events.start: walk the configured event list; skip an event whose cron
is missing or empty (falsy), skip one the cron validator rejects
(cron-parser throwing or yielding no next invocation, both caught and
logged), skip one for which node-schedule returns no job; push the
successfully scheduled jobs.  The validator and the external scheduler
are parameters (cron-parser and node-schedule are external libraries);
the per-event try/catch means one bad event never aborts the loop. -/
def startSchedule (validate : String → Bool) (schedOk : Event → Bool) : List Event → List Event
  | [] => []
  | e :: rest =>
    let tail := startSchedule validate schedOk rest
    match e.cron with
    | none => tail
    | some c =>
      if c = "" then tail
      else if validate c then (if schedOk e then e :: tail else tail)
      else tail

/-! ## Standalone cleanup scripts -/

/-- Substring test on character lists, used to model the shell pattern
test of the name-marker cleanup script. -/
def infixChars : List Char → List Char → Bool
  | p, [] => p.isEmpty
  | p, c :: t => p.isPrefixOf (c :: t) || infixChars p t

/-- Model of the bash pattern test: the name contains the marker. -/
def strContains (s pat : String) : Bool :=
  infixChars pat.data s.data

/-- Retention threshold in minutes for frequent (5-min) backups. -/
def FREQUENT_RETENTION : Nat := 300

/-- Retention threshold in minutes for hourly backups. -/
def HOURLY_RETENTION : Nat := 720

/-- Retention threshold in minutes for daily backups. -/
def DAILY_RETENTION : Nat := 20160

/-- The marker-based classification chain of the name-marker cleanup
script: -5min-backup, then -hourly-backup, then -daily-backup, then the
file-edit/pre-restore markers, else unknown (daily retention).  The order
of the elif chain matters: the first matching marker wins. -/
def classifyMarker (name : String) : Nat × String :=
  if strContains name "-5min-backup" then (FREQUENT_RETENTION, "frequent (5min)")
  else if strContains name "-hourly-backup" then (HOURLY_RETENTION, "hourly")
  else if strContains name "-daily-backup" then (DAILY_RETENTION, "daily")
  else if strContains name "-mission-file-edit" || strContains name "-file-edit"
      || strContains name "-pre-restore" then (1440, "file-edit")
  else (DAILY_RETENTION, "unknown (default to daily)")

/-- The delete decision of the name-marker script: age in whole minutes,
computed from the filesystem modification time in seconds with bash
truncating division, strictly greater than the classified threshold. -/
def markerScriptDelete (name : String) (created now : Int) : Bool :=
  decide ((now - created).tdiv 60 > ((classifyMarker name).1 : Int))

/-- One pass of the name-marker script over the entries of the backup
root: only directories whose name matches the glob mpmissions_* are
considered; returns the names it deletes (rm -rf). -/
def markerCleanupPass (now : Int) (entries : List (String × Node)) : List String :=
  entries.filterMap fun e =>
    if strStartsWith e.1 "mpmissions_" && e.2.isDir && markerScriptDelete e.1 e.2.mtime now
    then some e.1 else none

/-- Strip a literal character-list head, the anchored part of the
regular expression of the time-pattern cleanup script. -/
def stripLit : List Char → List Char → Option (List Char)
  | [], l => some l
  | _, [] => none
  | p :: ps, c :: cs => if p = c then stripLit ps cs else none

/-- Match exactly four digits. -/
def p4 : List Char → Option (List Char)
  | a :: b :: c :: d :: t =>
    if a.isDigit && b.isDigit && c.isDigit && d.isDigit then some t else none
  | _ => none

/-- Match a literal dash. -/
def pDash : List Char → Option (List Char)
  | c :: t => if c = '-' then some t else none
  | [] => none

/-- Greedy one-or-two-digit match with backtracking: the rests after
consuming two digits (preferred) or one. -/
def p12 : List Char → List (List Char)
  | a :: b :: rest =>
    (if a.isDigit && b.isDigit then [rest] else [])
      ++ (if a.isDigit then [b :: rest] else [])
  | [a] => if a.isDigit then [[]] else []
  | [] => []

/-- As p12, but also returning the captured digits. -/
def p12c : List Char → List (String × List Char)
  | a :: b :: rest =>
    (if a.isDigit && b.isDigit then [(String.mk [a, b], rest)] else [])
      ++ (if a.isDigit then [(String.mk [a], b :: rest)] else [])
  | [a] => if a.isDigit then [(String.mk [a], [])] else []
  | [] => []

/-- Match the script's expression
mpmissions_[0-9]\x7b4\x7d-[0-9]\x7b1,2\x7d-[0-9]\x7b1,2\x7d-([0-9]\x7b1,2\x7d)-([0-9]\x7b1,2\x7d)
at the start of the given characters, returning the captured hour and
minute fields. -/
def matchAt (l : List Char) : Option (String × String) :=
  (stripLit "mpmissions_".data l).bind fun r0 =>
    (p4 r0).bind fun r1 =>
      (pDash r1).bind fun r2 =>
        (p12 r2).findSome? fun r3 =>
          (pDash r3).bind fun r4 =>
            (p12 r4).findSome? fun r5 =>
              (pDash r5).bind fun r6 =>
                (p12c r6).findSome? fun hc =>
                  (pDash hc.2).bind fun r8 =>
                    (p12c r8).findSome? fun mc => some (hc.1, mc.1)

/-- The unanchored leftmost match of the time-pattern script's regular
expression against a directory name: BASH_REMATCH[1] is the hour field,
BASH_REMATCH[2] the minute field. -/
def timeMatch (name : String) : Option (String × String) :=
  go name.data
where
  /-- Try every start position, leftmost first. -/
  go : List Char → Option (String × String)
    | [] => none
    | c :: t =>
      match matchAt (c :: t) with
      | some r => some r
      | none => go t

/-- The classification of the time-pattern script: string comparison of
the captured fields against 00 (minute 00 and hour 00 is daily, minute 00
alone is hourly, anything else frequent). -/
def timeClassify (hStr mStr : String) : Nat × String :=
  if mStr = "00" && hStr = "00" then (DAILY_RETENTION, "daily")
  else if mStr = "00" then (HOURLY_RETENTION, "hourly")
  else (FREQUENT_RETENTION, "frequent")

/-- What the time-pattern script does with one directory of the backup
root: none when the name does not match the pattern (skipped, with a log
line, never deleted); some of the delete decision otherwise, the age in
whole minutes from the filesystem modification time compared strictly
against the classified threshold. -/
def timeScriptAction (name : String) (created now : Int) : Option Bool :=
  match timeMatch name with
  | none => none
  | some hm =>
    some (decide ((now - created).tdiv 60 > (((timeClassify hm.1 hm.2).1 : Int))))

/-- One pass of the time-pattern script over the entries of the backup
root: only directories matching the glob mpmissions_* are considered;
returns the names it deletes. -/
def timeCleanupPass (now : Int) (entries : List (String × Node)) : List String :=
  entries.filterMap fun e =>
    if strStartsWith e.1 "mpmissions_" && e.2.isDir then
      match timeScriptAction e.1 e.2.mtime now with
      | some true => some e.1
      | _ => none
    else none

/-- The classification the C8 claim states, written from its words: a
directory with minute 00 and hour 00 is daily (threshold 20160 minutes),
minute 00 with any other hour is hourly (threshold 720), anything else is
frequent (threshold 300). -/
def specTimeClassify (hStr mStr : String) : Nat × String :=
  if mStr = "00" then
    (if hStr = "00" then (20160, "daily") else (720, "hourly"))
  else (300, "frequent")

/-! ## Basic association-list filesystem lemmas -/

theorem lookup_set_self (fs : FS) (p : FsPath) (n : Node) :
    FS.lookup (FS.set fs p n) p = some n := by
  simp [FS.set, FS.lookup]

theorem lookup_erase (fs : FS) (p q : FsPath) :
    FS.lookup (FS.erase fs p) q = if q = p then none else FS.lookup fs q := by
  induction fs with
  | nil => simp [FS.erase, FS.lookup]
  | cons e t ih =>
    obtain ⟨r, n⟩ := e
    by_cases hrp : r = p
    · rw [FS.erase, if_pos hrp, ih]
      by_cases hqp : q = p
      · simp [hqp]
      · have hrq : r ≠ q := fun he => hqp (he ▸ hrp)
        simp [hqp, FS.lookup, hrq]
    · rw [FS.erase, if_neg hrp, FS.lookup]
      by_cases hrq : r = q
      · have hqp : q ≠ p := fun he => hrp (hrq.trans he)
        simp [hrq, hqp, FS.lookup]
      · rw [if_neg hrq, ih, FS.lookup, if_neg hrq]

theorem lookup_set_ne (fs : FS) (p : FsPath) (n : Node) (q : FsPath) (h : q ≠ p) :
    FS.lookup (FS.set fs p n) q = FS.lookup fs q := by
  simp [FS.set, FS.lookup, Ne.symm h, lookup_erase, h]

theorem lookup_ensureDir_of_some (fs : FS) (p : FsPath) (t : Int) (q : FsPath) (v : Node)
    (h : FS.lookup fs q = some v) :
    FS.lookup (ensureDir fs p t) q = some v := by
  unfold ensureDir
  cases hp : FS.lookup fs p with
  | some _ => exact h
  | none =>
    have hqp : q ≠ p := by
      intro he
      rw [he, hp] at h
      exact Option.noConfusion h
    rw [lookup_set_ne _ _ _ _ hqp]
    exact h

theorem lookup_ensureDir_ne (fs : FS) (p : FsPath) (t : Int) (q : FsPath) (h : q ≠ p) :
    FS.lookup (ensureDir fs p t) q = FS.lookup fs q := by
  unfold ensureDir
  cases hp : FS.lookup fs p with
  | some _ => rfl
  | none => exact lookup_set_ne _ _ _ _ h

theorem lookup_ensureDir_isSome_self (fs : FS) (p : FsPath) (t : Int) :
    (FS.lookup (ensureDir fs p t) p).isSome := by
  unfold ensureDir
  cases hp : FS.lookup fs p with
  | some _ => simp [hp]
  | none => simp [lookup_set_self]

theorem lookup_ensureDir_isSome_mono (fs : FS) (p : FsPath) (t : Int) (q : FsPath)
    (h : (FS.lookup fs q).isSome) :
    (FS.lookup (ensureDir fs p t) q).isSome := by
  cases hq : FS.lookup fs q with
  | none => rw [hq] at h; simp at h
  | some v => simp [lookup_ensureDir_of_some fs p t q v hq]

/-- The directory-creation fold of mkdirAll over an explicit list of
targets. -/
def mkdirFold (l : List FsPath) (fs : FS) (t : Int) : FS :=
  l.foldl (fun a q => ensureDir a q t) fs

theorem mkdirAll_eq_fold (fs : FS) (p : FsPath) (t : Int) :
    mkdirAll fs p t = mkdirFold (pathPrefixes p) fs t := rfl

theorem mkdirFold_cons (r : FsPath) (l : List FsPath) (fs : FS) (t : Int) :
    mkdirFold (r :: l) fs t = mkdirFold l (ensureDir fs r t) t := rfl

theorem mkdirFold_keeps_some (l : List FsPath) (fs : FS) (t : Int) (q : FsPath) (v : Node)
    (h : FS.lookup fs q = some v) :
    FS.lookup (mkdirFold l fs t) q = some v := by
  induction l generalizing fs with
  | nil => exact h
  | cons r rest ih =>
    exact ih (ensureDir fs r t) (lookup_ensureDir_of_some fs r t q v h)

theorem mkdirFold_ne (l : List FsPath) (fs : FS) (t : Int) (q : FsPath)
    (h : ∀ r ∈ l, q ≠ r) :
    FS.lookup (mkdirFold l fs t) q = FS.lookup fs q := by
  induction l generalizing fs with
  | nil => rfl
  | cons r rest ih =>
    rw [mkdirFold_cons]
    rw [ih (ensureDir fs r t) (fun x hx => h x (List.mem_cons_of_mem _ hx))]
    exact lookup_ensureDir_ne fs r t q (h r (List.mem_cons_self _ _))

theorem mkdirFold_isSome_mono (l : List FsPath) (fs : FS) (t : Int) (q : FsPath)
    (h : (FS.lookup fs q).isSome) :
    (FS.lookup (mkdirFold l fs t) q).isSome := by
  induction l generalizing fs with
  | nil => exact h
  | cons r rest ih =>
    exact ih (ensureDir fs r t) (lookup_ensureDir_isSome_mono fs r t q h)

theorem mkdirFold_isSome_of_mem (l : List FsPath) (fs : FS) (t : Int) (q : FsPath) :
    q ∈ l → (FS.lookup (mkdirFold l fs t) q).isSome := by
  induction l generalizing fs with
  | nil => intro h; cases h
  | cons r rest ih =>
    intro h
    rw [mkdirFold_cons]
    rcases List.mem_cons.mp h with he | hm
    · subst he
      exact mkdirFold_isSome_mono rest _ t q (lookup_ensureDir_isSome_self fs q t)
    · exact ih (ensureDir fs r t) hm

theorem pathPrefixes_length_le (p : FsPath) (q : FsPath) (h : q ∈ pathPrefixes p) :
    q.length ≤ p.length := by
  unfold pathPrefixes at h
  obtain ⟨i, _, rfl⟩ := List.mem_map.mp h
  simp [List.length_take]

theorem self_mem_pathPrefixes (p : FsPath) (h : p ≠ []) : p ∈ pathPrefixes p := by
  unfold pathPrefixes
  have hl : 0 < p.length := List.length_pos.mpr h
  refine List.mem_map.mpr ⟨p.length - 1, List.mem_range.mpr (by omega), ?_⟩
  rw [Nat.sub_add_cancel hl, List.take_length]

theorem mkdirAll_keeps_some (fs : FS) (p : FsPath) (t : Int) (q : FsPath) (v : Node)
    (h : FS.lookup fs q = some v) :
    FS.lookup (mkdirAll fs p t) q = some v := by
  rw [mkdirAll_eq_fold]
  exact mkdirFold_keeps_some _ _ _ _ _ h

theorem mkdirAll_lookup_longer (fs : FS) (p : FsPath) (t : Int) (q : FsPath)
    (h : p.length < q.length) :
    FS.lookup (mkdirAll fs p t) q = FS.lookup fs q := by
  rw [mkdirAll_eq_fold]
  refine mkdirFold_ne _ _ _ _ (fun r hr he => ?_)
  have := pathPrefixes_length_le p r hr
  subst he
  omega

theorem mkdirAll_lookup_notmem (fs : FS) (p : FsPath) (t : Int) (q : FsPath)
    (h : q ∉ pathPrefixes p) :
    FS.lookup (mkdirAll fs p t) q = FS.lookup fs q := by
  rw [mkdirAll_eq_fold]
  exact mkdirFold_ne _ _ _ _ (fun r hr he => h (he ▸ hr))

theorem mkdirAll_root_isSome (fs : FS) (p : FsPath) (t : Int) (h : p ≠ []) :
    (FS.lookup (mkdirAll fs p t) p).isSome := by
  rw [mkdirAll_eq_fold]
  exact mkdirFold_isSome_of_mem _ _ _ _ (self_mem_pathPrefixes p h)

/-- Appending a single segment is injective in both arguments. -/
theorem append_singleton_inj {p q : FsPath} {a b : String}
    (h : p ++ [a] = q ++ [b]) : p = q ∧ a = b := by
  have hl : p.length = q.length := by
    have := congrArg List.length h
    simp at this
    exact this
  have := List.append_inj h hl
  exact ⟨this.1, by simpa using this.2⟩

/-! ## Characterization of getBackups and cleanup -/

/-- Every descriptor returned by the stat loop of getBackups carries the
modification time the filesystem stores for that artifact path. -/
theorem getBackupsLoop_mem (dir : FsPath) (fs : FS) (files : List String) :
    ∀ l, getBackupsLoop dir fs files = .ok l →
      ∀ n mt, (n, mt) ∈ l →
        ∃ nd, FS.lookup fs (dir ++ [n]) = some nd ∧ nd.mtime = mt := by
  induction files with
  | nil =>
    intro l h n mt hm
    simp only [getBackupsLoop, Except.ok.injEq] at h
    subst h
    cases hm
  | cons f rest ih =>
    intro l h n mt hm
    rw [getBackupsLoop] at h
    cases hl : FS.lookup fs (dir ++ [f]) with
    | none => rw [hl] at h; cases h
    | some st =>
      rw [hl] at h
      cases hrec : getBackupsLoop dir fs rest with
      | error e => rw [hrec] at h; cases h
      | ok l2 =>
        rw [hrec] at h
        simp only [Except.ok.injEq] at h
        subst h
        by_cases hc : strStartsWith f "mpmissions_" && st.isDir
        · rw [if_pos hc] at hm
          rcases List.mem_cons.mp hm with he | hm2
          · injection he with he1 he2
            subst he1; subst he2
            exact ⟨st, hl, rfl⟩
          · exact ih l2 hrec n mt hm2
        · rw [if_neg hc] at hm
          exact ih l2 hrec n mt hm

/-- As getBackupsLoop_mem, for the full getBackups call. -/
theorem getBackups_mem (env : Env) (fs : FS) (bs : List (String × Int))
    (h : getBackups env fs = .ok bs) :
    ∀ n mt, (n, mt) ∈ bs →
      ∃ nd, FS.lookup fs (env.getBackupDir ++ [n]) = some nd ∧ nd.mtime = mt := by
  unfold getBackups fsReaddir at h
  by_cases hfr : env.failReaddir
  · rw [hfr] at h; cases h
  · rw [Bool.not_eq_true] at hfr
    rw [hfr] at h
    simp only [Bool.false_eq_true, if_false] at h
    cases hroot : FS.lookup fs env.getBackupDir with
    | none => rw [hroot] at h; cases h
    | some _ =>
      rw [hroot] at h
      exact getBackupsLoop_mem env.getBackupDir fs _ bs h

/-- The removal loop of cleanup only ever deletes; a path whose stored
node changes was removed, it is resolved against cwd, and its descriptor
was strictly older than the maximum age. -/
theorem cleanupLoop_lookup (env : Env) (maxAge : Int) (bs : List (String × Int)) (fs : FS)
    (p : FsPath) :
    FS.lookup (cleanupLoop env maxAge bs fs).2 p = FS.lookup fs p
    ∨ (FS.lookup (cleanupLoop env maxAge bs fs).2 p = none
       ∧ ∃ n mt, (n, mt) ∈ bs ∧ p = env.cwd ++ [n] ∧ env.nowMs - mt > maxAge) := by
  induction bs generalizing fs with
  | nil => left; rfl
  | cons b rest ih =>
    obtain ⟨f, mt⟩ := b
    by_cases hexp : env.nowMs - mt > maxAge
    · by_cases hfr : env.failRemove = true
      · left
        simp only [cleanupLoop, if_pos hexp, hfr, if_true]
      · rw [Bool.not_eq_true] at hfr
        have hred : (cleanupLoop env maxAge ((f, mt) :: rest) fs).2
            = (cleanupLoop env maxAge rest (FS.erase fs (env.cwd ++ [f]))).2 := by
          simp only [cleanupLoop, if_pos hexp, hfr, Bool.false_eq_true, if_false]
        rw [hred]
        rcases ih (FS.erase fs (env.cwd ++ [f])) with h1 | ⟨h1, n, mt2, hm, hp, hage⟩
        · rw [lookup_erase] at h1
          by_cases hpf : p = env.cwd ++ [f]
          · right
            rw [h1, if_pos hpf]
            exact ⟨rfl, f, mt, List.mem_cons_self _ _, hpf, hexp⟩
          · left
            rw [h1, if_neg hpf]
        · right
          exact ⟨h1, n, mt2, List.mem_cons_of_mem _ hm, hp, hage⟩
    · have hred : cleanupLoop env maxAge ((f, mt) :: rest) fs
          = cleanupLoop env maxAge rest fs := by
        simp only [cleanupLoop, if_neg hexp]
      rw [hred]
      rcases ih fs with h1 | ⟨h1, n, mt2, hm, hp, hage⟩
      · left; exact h1
      · right
        exact ⟨h1, n, mt2, List.mem_cons_of_mem _ hm, hp, hage⟩

/-- cleanup only ever deletes; a deleted path is resolved against cwd from
an artifact name whose stored modification time was strictly older than
backupMaxAge. -/
theorem cleanup_lookup (env : Env) (fs : FS) (p : FsPath) :
    FS.lookup (cleanup env fs).2 p = FS.lookup fs p
    ∨ (FS.lookup (cleanup env fs).2 p = none
       ∧ ∃ n nd, p = env.cwd ++ [n]
          ∧ FS.lookup fs (env.getBackupDir ++ [n]) = some nd
          ∧ env.nowMs - nd.mtime > (env.backupMaxAge : Int) * (24 * 60 * 60 * 1000)) := by
  unfold cleanup
  cases hg : getBackups env fs with
  | error e => left; rfl
  | ok bs =>
    rcases cleanupLoop_lookup env ((env.backupMaxAge : Int) * (24 * 60 * 60 * 1000)) bs fs p
      with h | ⟨h1, n, mt, hm, hp, hage⟩
    · left; exact h
    · right
      obtain ⟨nd, hnd, hmt⟩ := getBackups_mem env fs bs hg n mt hm
      exact ⟨h1, n, nd, hp, hnd, by rw [hmt]; exact hage⟩

/-! ## Symbolic runs of createBackup and the restore copy -/

/-- When mkdir and copy do not fault and the live mpmissions directory
exists, createBackup succeeds and the resulting filesystem is: backup root
chain created, live directory copied to the timestamped artifact path,
then the cleanup pass applied. -/
theorem createBackup_run (env : Env) (fs : FS) (nodeL : Node)
    (hmk : env.failMkdir = false) (hcp : env.failCopy = false)
    (hL : FS.lookup fs (mpmissionsPath env) = some nodeL) :
    createBackup env fs =
      (.ok (), (cleanup env (FS.set (mkdirAll fs env.getBackupDir env.nowMs)
        (env.getBackupDir ++ [backupMarker env])
        ⟨nodeL.isDir, nodeL.content, env.nowMs⟩)).2) := by
  have h1 : FS.lookup (mkdirAll fs env.getBackupDir env.nowMs) (mpmissionsPath env)
      = some nodeL := mkdirAll_keeps_some _ _ _ _ _ hL
  unfold createBackup
  rw [hmk, h1, hcp]
  simp

/-- The skip path of createBackup: when mkdir does not fault and the live
mpmissions directory is still missing after the backup-root mkdir, the
call succeeds and only the mkdir changed the filesystem. -/
theorem createBackup_skip (env : Env) (fs : FS)
    (hmk : env.failMkdir = false)
    (hL : FS.lookup (mkdirAll fs env.getBackupDir env.nowMs) (mpmissionsPath env) = none) :
    createBackup env fs = (.ok (), mkdirAll fs env.getBackupDir env.nowMs) := by
  unfold createBackup
  rw [hmk, hL]
  simp

/-- The final restore copy, characterized: a true result names the node
the artifact path stored, and the filesystem it returns. -/
theorem finishRestore_spec (env : Env) (fs : FS) (src dst : FsPath) (b : Bool) (fs2 : FS)
    (hcp : env.failCopy = false)
    (hres : finishRestore env fs src dst = (b, fs2)) :
    (b = true → ∃ nd, FS.lookup fs src = some nd
        ∧ fs2 = FS.set fs dst ⟨nd.isDir, nd.content, env.nowMs⟩)
    ∧ (b = false → fs2 = fs) := by
  unfold finishRestore at hres
  rw [hcp] at hres
  simp only [Bool.false_eq_true, if_false] at hres
  cases hl : FS.lookup fs src with
  | none =>
    rw [hl] at hres
    injection hres with hb hf
    subst hb; subst hf
    exact ⟨fun h => Bool.noConfusion h, fun _ => rfl⟩
  | some nd =>
    rw [hl] at hres
    injection hres with hb hf
    subst hb; subst hf
    exact ⟨fun _ => ⟨nd, rfl, rfl⟩, fun h => Bool.noConfusion h⟩

theorem mpmissionsPath_eq (env : Env) :
    mpmissionsPath env = env.getServerPath ++ ["mpmissions"] := rfl

/-- The timestamped artifact name is never the bare string mpmissions. -/
theorem backupMarker_ne_mpmissions (env : Env) : backupMarker env ≠ "mpmissions" := by
  intro he
  have h1 : 11 ≤ (backupMarker env).length := by
    unfold backupMarker
    simp only [String.length_append]
    have h2 : ("mpmissions_" : String).length = 11 := by decide
    omega
  rw [he] at h1
  have h3 : ("mpmissions" : String).length = 10 := by decide
  omega

/-- A name with the artifact prefix is never the bare string mpmissions. -/
theorem ne_mpmissions_of_markerName (x : String)
    (h : strStartsWith x "mpmissions_" = true) : x ≠ "mpmissions" := by
  intro he
  subst he
  exact absurd h (by decide)

/-- The tail of restoreBackup after the safety backup: given a filesystem
in which the safety artifact already holds the pre-restore live contents
and in which the restored artifact's node is either untouched or deleted,
the final copy preserves those facts and a true result pins the live
directory to the artifact's original contents. -/
theorem restore_tail_spec (env : Env) (fs fsk : FS) (name : String) (nodeA nodeL : Node)
    (b : Bool) (fs9 : FS)
    (hcp : env.failCopy = false)
    (hsaf : FS.lookup fsk (env.getBackupDir ++ [backupMarker env])
      = some ⟨nodeL.isDir, nodeL.content, env.nowMs⟩)
    (hart : FS.lookup fsk (env.getBackupDir ++ [name]) = some nodeA
      ∨ FS.lookup fsk (env.getBackupDir ++ [name]) = none)
    (hfr : ∀ x, x ≠ backupMarker env →
      FS.lookup fsk (env.getBackupDir ++ [x]) = FS.lookup fs (env.getBackupDir ++ [x])
      ∨ FS.lookup fsk (env.getBackupDir ++ [x]) = none)
    (hres : finishRestore env fsk (env.getBackupDir ++ [name]) (mpmissionsPath env)
      = (b, fs9)) :
    (∃ nd, FS.lookup fs9 (env.getBackupDir ++ [backupMarker env]) = some nd
      ∧ nd.content = nodeL.content)
    ∧ (∀ x, strStartsWith x "mpmissions_" = true → x ≠ backupMarker env →
        FS.lookup fs9 (env.getBackupDir ++ [x]) = FS.lookup fs (env.getBackupDir ++ [x])
        ∨ FS.lookup fs9 (env.getBackupDir ++ [x]) = none)
    ∧ (b = true → ∃ nd, FS.lookup fs9 (mpmissionsPath env) = some nd
        ∧ nd.content = nodeA.content) := by
  obtain ⟨htrue, hfalse⟩ := finishRestore_spec env fsk _ _ b fs9 hcp hres
  refine ⟨?_, ?_, ?_⟩
  · cases b with
    | false =>
      rw [hfalse rfl]
      exact ⟨_, hsaf, rfl⟩
    | true =>
      obtain ⟨nd, hnd, hfs9⟩ := htrue rfl
      have hne : env.getBackupDir ++ [backupMarker env] ≠ mpmissionsPath env := by
        rw [mpmissionsPath_eq]
        intro he
        exact backupMarker_ne_mpmissions env (append_singleton_inj he).2
      rw [hfs9, lookup_set_ne _ _ _ _ hne]
      exact ⟨_, hsaf, rfl⟩
  · intro x hxs hxm
    cases b with
    | false =>
      rw [hfalse rfl]
      exact hfr x hxm
    | true =>
      obtain ⟨nd, hnd, hfs9⟩ := htrue rfl
      have hne : env.getBackupDir ++ [x] ≠ mpmissionsPath env := by
        rw [mpmissionsPath_eq]
        intro he
        exact ne_mpmissions_of_markerName x hxs (append_singleton_inj he).2
      rw [hfs9, lookup_set_ne _ _ _ _ hne]
      exact hfr x hxm
  · intro hb
    subst hb
    obtain ⟨nd, hnd, hfs9⟩ := htrue rfl
    have hnda : nd = nodeA := by
      rcases hart with h | h
      · rw [h] at hnd
        injection hnd with h2
        exact h2.symm
      · rw [h] at hnd
        cases hnd
    subst hnda
    rw [hfs9, lookup_set_self]
    exact ⟨_, rfl, rfl⟩

/-! ## Concrete fixtures used by the claim theorems -/

/-- A fault-free environment: absolute backup dir b, absolute server dir
dz, one-day retention, clock 1000 ms at 2024-01-02 03:04 (nowMonth is the
zero-based getMonth value). -/
def envW : Env := {
  cwd := ["cwd"], backupPath := ["b"], backupPathAbs := true,
  serverPathCfg := some ["dz"], serverPathAbs := true, backupMaxAge := 1,
  failCopy := false, failRemove := false, failMkdir := false, failReaddir := false,
  nowMs := 1000, nowYear := 2024, nowMonth := 0, nowDay := 2, nowHours := 3,
  nowMinutes := 4 }

/-- envW with copy operations failing. -/
def envFC : Env := { envW with failCopy := true }

/-- A filesystem with backup root, one artifact, and a live mpmissions
directory whose contents are token 9. -/
def fsW : FS := [(["b"], ⟨true, 0, 0⟩), (["b", "mpmissions_old"], ⟨true, 7, 0⟩),
  (["dz", "mpmissions"], ⟨true, 9, 0⟩)]

/-- A filesystem with backup root and one artifact but no live mpmissions
directory. -/
def fsNoLive : FS := [(["b"], ⟨true, 0, 0⟩), (["b", "mpmissions_a"], ⟨true, 7, 0⟩)]

/-- Environment for the cleanup claims: working directory home, absolute
backup root srv/backups, one-day retention, clock far past the artifact
mtimes. -/
def env6 : Env := {
  cwd := ["home"], backupPath := ["srv", "backups"], backupPathAbs := true,
  serverPathCfg := some ["dayz"], serverPathAbs := true, backupMaxAge := 1,
  failCopy := false, failRemove := false, failMkdir := false, failReaddir := false,
  nowMs := 100000000000, nowYear := 2024, nowMonth := 0, nowDay := 2, nowHours := 3,
  nowMinutes := 4 }

/-- Backup root with one long-expired artifact (mtime 0). -/
def fs6 : FS := [(["srv", "backups"], ⟨true, 0, 0⟩),
  (["srv", "backups", "mpmissions_a"], ⟨true, 5, 0⟩)]

/-- Claim C2 (amended): for restoreBackup(name) with the artifact present,
the live directory present, no injected filesystem faults, and the
call-time marker different from the restored name: the safety artifact at
the timestamped marker path ends up holding the pre-restore live contents,
no other artifact path is created (each is unchanged or deleted by the
piggy-backed cleanup pass), and on a true result the live mission-data
directory holds the restored artifact's call-time contents. -/
theorem c2_restore_spec (env : Env) (fs : FS) (name : String) (nodeA nodeL : Node)
    (b : Bool) (fs9 : FS)
    (hmk : env.failMkdir = false) (hcp : env.failCopy = false) (hrm : env.failRemove = false)
    (hA : FS.lookup fs (env.getBackupDir ++ [name]) = some nodeA)
    (hL : FS.lookup fs (mpmissionsPath env) = some nodeL)
    (hmar : backupMarker env ≠ name)
    (hres : restoreBackup env fs name = (b, fs9)) :
    (∃ nd, FS.lookup fs9 (env.getBackupDir ++ [backupMarker env]) = some nd
      ∧ nd.content = nodeL.content)
    ∧ (∀ x, strStartsWith x "mpmissions_" = true → x ≠ backupMarker env →
        FS.lookup fs9 (env.getBackupDir ++ [x]) = FS.lookup fs (env.getBackupDir ++ [x])
        ∨ FS.lookup fs9 (env.getBackupDir ++ [x]) = none)
    ∧ (b = true → ∃ nd, FS.lookup fs9 (mpmissionsPath env) = some nd
        ∧ nd.content = nodeA.content) := by
  have hcb := createBackup_run env fs nodeL hmk hcp hL
  unfold restoreBackup at hres
  rw [hA] at hres
  simp only [Option.isNone_some, Bool.false_eq_true, if_false] at hres
  rw [hcb] at hres
  dsimp only at hres
  set fs3 := (cleanup env ((mkdirAll fs env.getBackupDir env.nowMs).set
    (env.getBackupDir ++ [backupMarker env])
    ⟨nodeL.isDir, nodeL.content, env.nowMs⟩)).2 with hfs3
  -- the safety artifact survives the cleanup pass
  have hsafety3 : FS.lookup fs3 (env.getBackupDir ++ [backupMarker env])
      = some ⟨nodeL.isDir, nodeL.content, env.nowMs⟩ := by
    rcases cleanup_lookup env ((mkdirAll fs env.getBackupDir env.nowMs).set
        (env.getBackupDir ++ [backupMarker env]) ⟨nodeL.isDir, nodeL.content, env.nowMs⟩)
        (env.getBackupDir ++ [backupMarker env]) with h | ⟨h0, n, nd, hp, hnd, hage⟩
    · rw [← hfs3] at h
      rw [h, lookup_set_self]
    · exfalso
      obtain ⟨hcwd, hn⟩ := append_singleton_inj hp
      subst hn
      rw [lookup_set_self] at hnd
      injection hnd with hnd2
      subst hnd2
      simp only [sub_self] at hage
      have hnn : (0 : Int) ≤ (env.backupMaxAge : Int) * (24 * 60 * 60 * 1000) := by positivity
      omega
  -- the restored artifact is untouched or deleted by the cleanup pass
  have hart3 : FS.lookup fs3 (env.getBackupDir ++ [name]) = some nodeA
      ∨ FS.lookup fs3 (env.getBackupDir ++ [name]) = none := by
    rcases cleanup_lookup env ((mkdirAll fs env.getBackupDir env.nowMs).set
        (env.getBackupDir ++ [backupMarker env]) ⟨nodeL.isDir, nodeL.content, env.nowMs⟩)
        (env.getBackupDir ++ [name]) with h | ⟨h0, _⟩
    · left
      rw [← hfs3] at h
      rw [h]
      have hne : env.getBackupDir ++ [name] ≠ env.getBackupDir ++ [backupMarker env] := by
        intro he
        exact hmar (append_singleton_inj he).2.symm
      rw [lookup_set_ne _ _ _ _ hne]
      exact mkdirAll_keeps_some _ _ _ _ _ hA
    · right
      rw [← hfs3] at h0
      exact h0
  -- any other artifact path is untouched or deleted
  have hframe3 : ∀ x, x ≠ backupMarker env →
      FS.lookup fs3 (env.getBackupDir ++ [x]) = FS.lookup fs (env.getBackupDir ++ [x])
      ∨ FS.lookup fs3 (env.getBackupDir ++ [x]) = none := by
    intro x hx
    rcases cleanup_lookup env ((mkdirAll fs env.getBackupDir env.nowMs).set
        (env.getBackupDir ++ [backupMarker env]) ⟨nodeL.isDir, nodeL.content, env.nowMs⟩)
        (env.getBackupDir ++ [x]) with h | ⟨h0, _⟩
    · left
      rw [← hfs3] at h
      rw [h]
      have hne : env.getBackupDir ++ [x] ≠ env.getBackupDir ++ [backupMarker env] := by
        intro he
        exact hx (append_singleton_inj he).2
      rw [lookup_set_ne _ _ _ _ hne]
      exact mkdirAll_lookup_longer _ _ _ _ (by simp)
    · right
      rw [← hfs3] at h0
      exact h0
  cases hmp3 : FS.lookup fs3 (mpmissionsPath env) with
  | some nd0 =>
    rw [hmp3] at hres
    dsimp only at hres
    rw [hrm] at hres
    simp only [Bool.false_eq_true, if_false] at hres
    have hsaf4 : FS.lookup (fs3.erase (mpmissionsPath env))
        (env.getBackupDir ++ [backupMarker env])
        = some ⟨nodeL.isDir, nodeL.content, env.nowMs⟩ := by
      rw [lookup_erase]
      have hne : env.getBackupDir ++ [backupMarker env] ≠ mpmissionsPath env := by
        rw [mpmissionsPath_eq]
        intro he
        exact backupMarker_ne_mpmissions env (append_singleton_inj he).2
      rw [if_neg hne]
      exact hsafety3
    have hart4 : FS.lookup (fs3.erase (mpmissionsPath env)) (env.getBackupDir ++ [name])
        = some nodeA
        ∨ FS.lookup (fs3.erase (mpmissionsPath env)) (env.getBackupDir ++ [name]) = none := by
      rw [lookup_erase]
      by_cases he : env.getBackupDir ++ [name] = mpmissionsPath env
      · right; rw [if_pos he]
      · rw [if_neg he]; exact hart3
    have hfr4 : ∀ x, x ≠ backupMarker env →
        FS.lookup (fs3.erase (mpmissionsPath env)) (env.getBackupDir ++ [x])
          = FS.lookup fs (env.getBackupDir ++ [x])
        ∨ FS.lookup (fs3.erase (mpmissionsPath env)) (env.getBackupDir ++ [x]) = none := by
      intro x hx
      rw [lookup_erase]
      by_cases he : env.getBackupDir ++ [x] = mpmissionsPath env
      · right; rw [if_pos he]
      · rw [if_neg he]; exact hframe3 x hx
    exact restore_tail_spec env fs _ name nodeA nodeL b fs9 hcp hsaf4 hart4 hfr4 hres
  | none =>
    rw [hmp3] at hres
    dsimp only at hres
    exact restore_tail_spec env fs _ name nodeA nodeL b fs9 hcp hsafety3 hart3 hframe3 hres


/-- Claim C2 witness: the amended restore specification applied to the
concrete fixture, exhibiting the safety artifact with the pre-restore
live contents (token 9). -/
theorem c2_restore_spec_witness :
    ∃ nd, FS.lookup (restoreBackup envW fsW "mpmissions_old").2
      (envW.getBackupDir ++ [backupMarker envW]) = some nd ∧ nd.content = 9 :=
  (c2_restore_spec envW fsW "mpmissions_old" ⟨true, 7, 0⟩ ⟨true, 9, 0⟩
    (restoreBackup envW fsW "mpmissions_old").1 (restoreBackup envW fsW "mpmissions_old").2
    rfl rfl rfl (by decide) (by decide) (by decide) rfl).1

/-- Claim C2 counterexample: with the artifact present but the live
mission-data directory missing, restoreBackup returns true yet creates no
safety artifact at the call-time timestamped path — refuting that every
restore of an existing artifact first creates exactly one new safety
backup. -/
theorem c2_counterexample :
    (restoreBackup envW fsNoLive "mpmissions_a").1 = true
    ∧ FS.lookup (restoreBackup envW fsNoLive "mpmissions_a").2
        (envW.getBackupDir ++ [backupMarker envW]) = none := by decide

/-- Claim C1 counterexample: with the supervised server STOPPED, a
backup-type event dispatched by execute still invokes the underlying
createBackup action — refuting that every task type is gated on STARTED. -/
theorem c1_counterexample :
    ServerState.STOPPED ≠ ServerState.STARTED
    ∧ execute ServerState.STOPPED ⟨"auto backup", "backup", some "0 0 * * *", []⟩
      = some TaskAction.backupAction := by decide

/-- Claim C1 (amended): when the supervised server is not in STARTED
state, execute invokes no underlying action for restart, message, kickAll,
lock and unlock tasks (checkStartedAndRun skips them with a warning), but
a backup task still invokes createBackup, and unknown types invoke
nothing. -/
theorem c1_backup_ungated (st : ServerState) (e : Event)
    (h : st ≠ ServerState.STARTED) :
    execute st e = if e.type = "backup" then some TaskAction.backupAction else none := by
  simp only [execute, checkStartedAndRun, if_neg h]
  split_ifs <;> simp_all

/-- Claim C1 witness: at STOPPED, a restart task invokes nothing and a
backup task invokes createBackup. -/
theorem c1_backup_ungated_witness :
    execute ServerState.STOPPED ⟨"r1", "restart", none, []⟩ = none
    ∧ execute ServerState.STOPPED ⟨"b1", "backup", none, []⟩ = some TaskAction.backupAction := by
  constructor
  · exact (c1_backup_ungated ServerState.STOPPED ⟨"r1", "restart", none, []⟩
      (by decide)).trans (by decide)
  · exact (c1_backup_ungated ServerState.STOPPED ⟨"b1", "backup", none, []⟩
      (by decide)).trans (by decide)

/-- The scheduling loop of Events.start keeps exactly the events with a
present, nonempty, validator-accepted cron for which the external
scheduler produced a job. -/
theorem startSchedule_eq_filter (v : String → Bool) (ok : Event → Bool) (evs : List Event) :
    startSchedule v ok evs = evs.filter (fun e =>
      match e.cron with
      | none => false
      | some c => if c = "" then false else v c && ok e) := by
  induction evs with
  | nil => rfl
  | cons e rest ih =>
    rw [startSchedule, List.filter_cons]
    cases hc : e.cron with
    | none => simp [hc, ih]
    | some c =>
      by_cases h1 : c = "" <;> by_cases h2 : v c <;> by_cases h3 : ok e <;>
        simp [hc, h1, h2, h3, ih]

/-- Claim C3: an event whose cron expression the validator rejects gets no
timer from start(), and any event with a present, nonempty, accepted cron
expression for which the external scheduler yields a job is scheduled —
one rejected event never prevents the others. -/
theorem c3_isolation (v : String → Bool) (ok : Event → Bool) (evs : List Event)
    (e : Event) (c : String) (hc : e.cron = some c) (hne : c ≠ "") :
    (v c = false → e ∉ startSchedule v ok evs)
    ∧ (v c = true → ok e = true → e ∈ evs → e ∈ startSchedule v ok evs) := by
  rw [startSchedule_eq_filter]
  constructor
  · intro hv hmem
    have hp := (List.mem_filter.mp hmem).2
    simp only [hc, hne, if_false, hv] at hp
    simp at hp
  · intro hv hok hmem
    refine List.mem_filter.mpr ⟨hmem, ?_⟩
    simp [hc, hne, hv, hok]

/-- Claim C3 witness: in a batch with one valid backup event and one
rejected restart event, the rejected event gets zero timers and the valid
one is still scheduled. -/
theorem c3_isolation_witness :
    (⟨"B", "restart", some "invalid", []⟩ : Event)
      ∉ startSchedule (fun c => c == "*/5 * * * *") (fun _ => true)
        [⟨"A", "backup", some "*/5 * * * *", []⟩, ⟨"B", "restart", some "invalid", []⟩]
    ∧ (⟨"A", "backup", some "*/5 * * * *", []⟩ : Event)
      ∈ startSchedule (fun c => c == "*/5 * * * *") (fun _ => true)
        [⟨"A", "backup", some "*/5 * * * *", []⟩, ⟨"B", "restart", some "invalid", []⟩] := by
  constructor
  · exact (c3_isolation (fun c => c == "*/5 * * * *") (fun _ => true)
      [⟨"A", "backup", some "*/5 * * * *", []⟩, ⟨"B", "restart", some "invalid", []⟩]
      ⟨"B", "restart", some "invalid", []⟩ "invalid" rfl (by decide)).1 (by decide)
  · exact (c3_isolation (fun c => c == "*/5 * * * *") (fun _ => true)
      [⟨"A", "backup", some "*/5 * * * *", []⟩, ⟨"B", "restart", some "invalid", []⟩]
      ⟨"A", "backup", some "*/5 * * * *", []⟩ "*/5 * * * *" rfl (by decide)).2
      (by decide) rfl (by decide)

/-- Claim C4 counterexample: createBackup with the live directory present
and a failing copy rethrows the error to its caller instead of returning a
failure result — refuting that only listBackups may propagate. -/
theorem c4_counterexample :
    exceptIsError (createBackup envFC [(["dz", "mpmissions"], ⟨true, 1, 0⟩)]).1 = true := by
  decide

/-- Claim C4 (amended): restoreBackup converts every internal error to a
false result and never throws — here under an injected copy failure, which
also makes the inner createBackup throw — while createBackup itself
rethrows errors to its caller (see the counterexample) and getBackups
propagates read errors. -/
theorem c4_restore_false (env : Env) (fs : FS) (name : String)
    (h : env.failCopy = true) : (restoreBackup env fs name).1 = false := by
  unfold restoreBackup
  cases hl : FS.lookup fs (env.getBackupDir ++ [name]) with
  | none => rfl
  | some nodeX =>
    dsimp only [Option.isNone_some]
    cases hcb : createBackup env fs with
    | mk r fs1 =>
      cases r with
      | error e => rfl
      | ok u =>
        dsimp only
        cases hm : FS.lookup fs1 (mpmissionsPath env) with
        | some _ =>
          dsimp only
          by_cases hfr : env.failRemove = true
          · rw [if_pos hfr]
            rfl
          · rw [if_neg hfr]
            unfold finishRestore
            rw [h]
            rfl
        | none =>
          dsimp only
          unfold finishRestore
          rw [h]
          rfl

/-- Claim C4 witness: the amended restore-never-throws statement at a
concrete faulty environment. -/
theorem c4_restore_false_witness : (restoreBackup envFC [] "x").1 = false :=
  c4_restore_false envFC [] "x" rfl

/-- Claim C5: createBackup called while the live mpmissions directory does
not exist (and does not sit on the backup-root mkdir chain) succeeds
without raising, changes the filesystem only by the backup-root mkdir, and
creates no artifact path. -/
theorem c5_skip_no_artifact (env : Env) (fs : FS)
    (hmk : env.failMkdir = false)
    (hsrc : FS.lookup fs (mpmissionsPath env) = none)
    (hdisj : mpmissionsPath env ∉ pathPrefixes env.getBackupDir) :
    createBackup env fs = (.ok (), mkdirAll fs env.getBackupDir env.nowMs)
    ∧ ∀ x, FS.lookup (mkdirAll fs env.getBackupDir env.nowMs) (env.getBackupDir ++ [x])
        = FS.lookup fs (env.getBackupDir ++ [x]) := by
  have hm : FS.lookup (mkdirAll fs env.getBackupDir env.nowMs) (mpmissionsPath env) = none := by
    rw [mkdirAll_lookup_notmem _ _ _ _ hdisj]
    exact hsrc
  exact ⟨createBackup_skip env fs hmk hm, fun x => mkdirAll_lookup_longer _ _ _ _ (by simp)⟩

/-- Claim C5 witness: the skip path on an empty filesystem. -/
theorem c5_skip_no_artifact_witness :
    createBackup envW [] = (.ok (), mkdirAll [] envW.getBackupDir envW.nowMs) :=
  (c5_skip_no_artifact envW [] rfl rfl (by decide)).1

/-- Claim C6 (code_bug): the expired artifact under the backup root
strictly exceeds the maximum age and the removal loop fires exactly once,
but the removal target is the bare file name resolved against the working
directory (absent there), so the artifact itself survives the cleanup; the
standalone marker script, by contrast, deletes on strict > of the
age-in-minutes and keeps the artifact whose age equals the threshold
exactly. -/
theorem c6_cleanup_wrong_path :
    ((100000000000 : Int) - 0 > (1 : Int) * (24 * 60 * 60 * 1000))
    ∧ (cleanup env6 fs6).1 = [["home", "mpmissions_a"]]
    ∧ FS.lookup (cleanup env6 fs6).2 ["srv", "backups", "mpmissions_a"] = some ⟨true, 5, 0⟩
    ∧ FS.lookup fs6 ["home", "mpmissions_a"] = none
    ∧ markerCleanupPass (721 * 60) [("mpmissions_a-hourly-backup", ⟨true, 1, 60⟩),
        ("mpmissions_b-hourly-backup", ⟨true, 2, 0⟩)] = ["mpmissions_b-hourly-backup"] := by
  decide

/-- Claim C7 counterexample: a directory name containing the
-hourly-backup marker but also the -5min-backup marker is classified
frequent, not hourly — the elif chain tests -5min-backup first, refuting
that every name containing -hourly-backup is classified hourly. -/
theorem c7_counterexample :
    strContains "mpmissions_1-5min-backup-hourly-backup" "-hourly-backup" = true
    ∧ classifyMarker "mpmissions_1-5min-backup-hourly-backup" ≠ (720, "hourly")
    ∧ classifyMarker "mpmissions_1-5min-backup-hourly-backup" = (300, "frequent (5min)") := by
  decide

/-- Claim C7 (amended): a name containing the -hourly-backup marker and
not the earlier-tested -5min-backup marker is classified hourly regardless
of age, and is deleted iff its age in whole minutes, computed from the
filesystem modification time, strictly exceeds 720. -/
theorem c7_hourly_marker (name : String) (created now : Int)
    (h5 : strContains name "-5min-backup" = false)
    (hh : strContains name "-hourly-backup" = true) :
    classifyMarker name = (720, "hourly")
    ∧ (markerScriptDelete name created now = true ↔ (now - created).tdiv 60 > 720) := by
  have hcl : classifyMarker name = (720, "hourly") := by
    simp [classifyMarker, h5, hh, HOURLY_RETENTION]
  refine ⟨hcl, ?_⟩
  unfold markerScriptDelete
  rw [hcl]
  simp

/-- Claim C7 witness: a plain hourly-marked name is classified hourly. -/
theorem c7_hourly_marker_witness :
    classifyMarker "mpmissions_x-hourly-backup" = (720, "hourly") :=
  (c7_hourly_marker "mpmissions_x-hourly-backup" 0 0 (by decide) (by decide)).1

/-- Claim C8: the time-pattern script's classification agrees with the
claim (minute 00 and hour 00 daily with threshold 20160, minute 00 alone
hourly with 720, else frequent with 300); a matched directory is deleted
iff its mtime-derived age in minutes strictly exceeds its threshold; a
directory not matching the naming pattern is skipped and never deleted. -/
theorem c8_time_classification (name hStr mStr : String) (created now : Int)
    (entries : List (String × Node)) :
    timeClassify hStr mStr = specTimeClassify hStr mStr
    ∧ (timeMatch name = some (hStr, mStr) →
        (timeScriptAction name created now = some true
          ↔ (now - created).tdiv 60 > ((specTimeClassify hStr mStr).1 : Int)))
    ∧ (timeMatch name = none → name ∉ timeCleanupPass now entries) := by
  have hcl : timeClassify hStr mStr = specTimeClassify hStr mStr := by
    unfold timeClassify specTimeClassify
    by_cases h1 : mStr = "00" <;> by_cases h2 : hStr = "00" <;>
      simp [h1, h2, DAILY_RETENTION, HOURLY_RETENTION, FREQUENT_RETENTION]
  refine ⟨hcl, ?_, ?_⟩
  · intro hm
    unfold timeScriptAction
    rw [hm]
    dsimp only
    rw [hcl]
    simp [Option.some.injEq, decide_eq_true_iff]
  · intro hm hmem
    unfold timeCleanupPass at hmem
    rw [List.mem_filterMap] at hmem
    obtain ⟨⟨nm, nd⟩, _, hf⟩ := hmem
    by_cases hg : strStartsWith nm "mpmissions_" && nd.isDir
    · rw [if_pos hg] at hf
      cases ha : timeScriptAction nm nd.mtime now with
      | none => rw [ha] at hf; cases hf
      | some bb =>
        cases bb with
        | false => rw [ha] at hf; cases hf
        | true =>
          rw [ha] at hf
          injection hf with hnm
          subst hnm
          unfold timeScriptAction at ha
          rw [hm] at ha
          cases ha
    · rw [if_neg hg] at hf
      cases hf

/-- Claim C8 witness: a midnight-stamped name is matched and deleted at
age 20161 minutes; an unmatched name is never deleted. -/
theorem c8_time_classification_witness :
    timeScriptAction "mpmissions_2024-1-1-00-00" 0 1209660 = some true
    ∧ "mpmissions_xx" ∉ timeCleanupPass 0 [("mpmissions_xx", ⟨true, 0, 0⟩)] := by
  constructor
  · exact ((c8_time_classification "mpmissions_2024-1-1-00-00" "00" "00" 0 1209660 []).2.1
      (by decide)).mpr (by decide)
  · exact (c8_time_classification "mpmissions_xx" "" "" 0 0
      [("mpmissions_xx", ⟨true, 0, 0⟩)]).2.2 (by decide)

/-- Claim C9 (code_bug): after a first cleanup pass over an expired
artifact, the artifact still exists under the backup root (the removal
targeted the name resolved against the working directory), so a second
pass with no intervening changes performs exactly the same nonempty set of
removals again — cleanup is not idempotent. -/
theorem c9_cleanup_not_idempotent :
    (cleanup env6 fs6).1 = [["home", "mpmissions_a"]]
    ∧ FS.lookup (cleanup env6 fs6).2 ["srv", "backups", "mpmissions_a"] = some ⟨true, 5, 0⟩
    ∧ (cleanup env6 (cleanup env6 fs6).2).1 = (cleanup env6 fs6).1
    ∧ (cleanup env6 (cleanup env6 fs6).2).1 ≠ [] := by
  decide

/-- Claim C10: every createBackup call mkdirs the backup root chain before
checking the source, so a call that takes the missing-source skip path
still succeeds and leaves the backup root directory existing — and when
the root was previously absent the skip path does mutate the filesystem. -/
theorem c10_mkdir_first (env : Env) (fs : FS)
    (hmk : env.failMkdir = false)
    (hsrc : FS.lookup fs (mpmissionsPath env) = none)
    (hdisj : mpmissionsPath env ∉ pathPrefixes env.getBackupDir)
    (hroot : env.getBackupDir ≠ []) :
    exceptIsError (createBackup env fs).1 = false
    ∧ (FS.lookup (createBackup env fs).2 env.getBackupDir).isSome = true
    ∧ (FS.lookup fs env.getBackupDir = none → (createBackup env fs).2 ≠ fs) := by
  have hm : FS.lookup (mkdirAll fs env.getBackupDir env.nowMs) (mpmissionsPath env) = none := by
    rw [mkdirAll_lookup_notmem _ _ _ _ hdisj]
    exact hsrc
  have hrun := createBackup_skip env fs hmk hm
  rw [hrun]
  refine ⟨rfl, mkdirAll_root_isSome fs _ env.nowMs hroot, ?_⟩
  intro h0 heq
  dsimp only at heq
  have hIs := mkdirAll_root_isSome fs env.getBackupDir env.nowMs hroot
  rw [heq, h0] at hIs
  simp at hIs

/-- Claim C10 witness: the skip path applied to the empty filesystem
leaves the backup root existing. -/
theorem c10_mkdir_first_witness :
    (FS.lookup (createBackup envW []).2 envW.getBackupDir).isSome = true :=
  (c10_mkdir_first envW [] rfl rfl (by decide) (by decide)).2.1

end DayZSM
